import Mathlib

/-!
Verification development for the training-loop orchestration layer in
`pytorch_toolbox/training/learner.py` (epoch driver `fit`, `validate`,
`determine_phase`, the `Learner` facade and the `Recorder` callback).

The Python code is shallowly embedded: pure functions become Lean
functions, attribute access on objects becomes `Option` lookup (a missing
attribute raises `AttributeError`), fallible code returns `Except`, and
the external collaborators (callback handler, data loaders, loss
functions, tensors) are oracles whose observable outcomes are supplied as
explicit environment data.  Numeric loss/metric values are modelled by
rationals.
-/

/-- Python exception values that the embedded code can raise. -/
inductive PyErr
  | attributeError
  | assertionError
  | indexError
  | userError (n : Nat)
deriving DecidableEq, Repr

/-- Reading a Python attribute: a missing attribute raises `AttributeError`. -/
def attrRead {α : Type} (a : Option α) : Except PyErr α :=
  match a with
  | none => .error .attributeError
  | some v => .ok v

/-- The `Phase` enum of learner.py (TRAIN = 1, VAL = 2, TEST = 3). -/
inductive Phase
  | TRAIN
  | VAL
  | TEST
deriving DecidableEq, Repr

/-- The `.name` member of a Python enum value, used for history keys. -/
def Phase.name : Phase → String
  | .TRAIN => "TRAIN"
  | .VAL => "VAL"
  | .TEST => "TEST"

/-- A batch target dictionary.  Values are opaque; `none` models both a
missing key and a `None` value, matching the semantics of `dict.get`. -/
abbrev Target := String → Option Nat

/-- Embedding of `determine_phase(train, last_target, label_key="label")`:
if `train` return TRAIN, else return VAL when `last_target.get(label_key)`
is not `None` and TEST otherwise. -/
def determine_phase (train : Bool) (last_target : Target) (label_key : String) : Phase :=
  if train then Phase.TRAIN
  else
    match last_target label_key with
    | some _ => Phase.VAL
    | none => Phase.TEST

/-! ### The `validate` function (learner.py lines 162-181)

One validation batch is described by the observable outcome of its
processing: the detached loss returned by `loss_batch`, the leading
dimension of the first target (`yb[0].shape[0]`, appended to `nums`) and
the stop vote returned by `cb_handler.on_batch_end`. -/

/-- Observable outcome of one validation batch. -/
structure ValObs where
  loss : ℚ
  size : Nat
  stop : Bool
deriving DecidableEq

/-- The cap test `if n_batch and (len(nums) >= n_batch): break`; `n_batch`
is falsy when it is `None` or `0`. -/
def nBatchCap (nb : Option Nat) (count : Nat) : Bool :=
  match nb with
  | none => false
  | some k => (k != 0) && (k ≤ count)

/-- The batch loop of `validate`: append `(loss, size)` for each batch,
breaking after a batch when its `on_batch_end` votes stop or when the
`n_batch` cap is reached.  `count` is `len(nums)` before the current batch. -/
def validateLoop (nb : Option Nat) (count : Nat) : List ValObs → List (ℚ × Nat)
  | [] => []
  | b :: rest =>
      (b.loss, b.size) ::
        (if b.stop then []
         else if nBatchCap nb (count + 1) then []
         else validateLoop nb (count + 1) rest)

/-- Result of `validate`: a size-weighted average or the raw loss list. -/
inductive ValResult
  | avg (val : ℚ)
  | raw (losses : List ℚ)
deriving DecidableEq

/-- Embedding of `validate`: run the batch loop, then either return
`(stack(val_losses) * nums).sum() / nums.sum()` (when `average`) or the
raw list of per-batch losses. -/
def validate (dl : List ValObs) (average : Bool) (nb : Option Nat) : ValResult :=
  let pairs := validateLoop nb 0 dl
  if average then
    ValResult.avg (((pairs.map (fun p => p.1 * (p.2 : ℚ))).sum) /
      ((pairs.map (fun p => ((p.2 : Nat) : ℚ))).sum))
  else
    ValResult.raw (pairs.map Prod.fst)

/-! ### The epoch driver `fit` (learner.py lines 131-159)

The driver is embedded as a function of an environment that records, for
every epoch and batch, the observable outcome of the external calls
(callback dispatch, data iteration, forward/backward computation).  The
driver returns the ordered trace of completed actions together with the
Python-level result (`.ok` for normal return, `.error e` when exception
`e` escapes to the caller). -/

/-- Value passed to `on_train_end`: the local variable `exception` is
initialised to the literal `False` and only ever reassigned to a captured
exception, but `None` is representable since the spec distinguishes it. -/
inductive TrainEndVal
  | noneV
  | falseV
  | excV (e : PyErr)
deriving DecidableEq, Repr

/-- Completed actions of the epoch driver, in dispatch order. -/
inductive Event
  | trainBegin
  | epochBegin (epoch : Nat)
  | batchDone (epoch idx : Nat)
  | validateRun (epoch : Nat)
  | epochEnd (epoch : Nat)
  | trainEnd (arg : TrainEndVal)
deriving DecidableEq, Repr

/-- Predicate selecting `on_train_end` invocations in a trace. -/
def isTrainEndEv : Event → Bool
  | .trainEnd _ => true
  | _ => false

/-- Outcome of one training batch: either some step of
`on_batch_begin` / `loss_batch` / `on_batch_end` raised, or the batch
completed and `on_batch_end` returned the stop vote. -/
inductive BatchOutcome
  | raises (e : PyErr)
  | done (stop : Bool)
deriving DecidableEq, Repr

/-- Environment of one epoch: outcome of `on_epoch_begin`, of each
training batch of `train_dl`, of `validate` (when it runs) and of
`on_epoch_end`. -/
structure EpochEnv where
  beginErr : Option PyErr
  batches : List BatchOutcome
  validOutcome : Except PyErr ℚ
  epochEndOutcome : Except PyErr Bool

/-- Environment of one run of `fit`: outcome of `on_train_begin`, the
`hasattr(data, "valid_dl") and data.valid_dl is not None` test, and the
per-epoch environments (one per element of `range(epochs)`). -/
structure FitEnv where
  trainBeginErr : Option PyErr
  hasValidDl : Bool
  epochs : List EpochEnv

/-- The inner batch loop `for xb, yb in progress_bar(data.train_dl, ...)`:
`break` on a stop vote abandons the remaining batches of this epoch only;
an exception propagates. -/
def runBatches (ep : Nat) : Nat → List BatchOutcome → List Event × Except PyErr Unit
  | _, [] => ([], .ok ())
  | i, b :: rest =>
      match b with
      | .raises e => ([], .error e)
      | .done stop =>
          if stop then ([Event.batchDone ep i], .ok ())
          else
            let r := runBatches ep (i + 1) rest
            (Event.batchDone ep i :: r.1, r.2)

/-- One iteration of the epoch loop: `model.train()`, `on_epoch_begin`,
the training batches, then `validate` when a validation loader exists
(else `val_loss = None`), then `on_epoch_end(val_loss)` whose stop vote is
returned. -/
def runEpoch (hasValid : Bool) (ep : Nat) (env : EpochEnv) : List Event × Except PyErr Bool :=
  match env.beginErr with
  | some e => ([], .error e)
  | none =>
      let br := runBatches ep 0 env.batches
      match br.2 with
      | .error e => (Event.epochBegin ep :: br.1, .error e)
      | .ok _ =>
          if hasValid then
            match env.validOutcome with
            | .error e => (Event.epochBegin ep :: br.1, .error e)
            | .ok _ =>
                match env.epochEndOutcome with
                | .error e => ((Event.epochBegin ep :: br.1) ++ [Event.validateRun ep], .error e)
                | .ok stop =>
                    ((Event.epochBegin ep :: br.1) ++ [Event.validateRun ep, Event.epochEnd ep],
                      .ok stop)
          else
            match env.epochEndOutcome with
            | .error e => (Event.epochBegin ep :: br.1, .error e)
            | .ok stop => ((Event.epochBegin ep :: br.1) ++ [Event.epochEnd ep], .ok stop)

/-- The outer loop `for epoch in pbar`: a stop vote from `on_epoch_end`
abandons the remaining epochs; an exception propagates. -/
def fitLoop (hasValid : Bool) : Nat → List EpochEnv → List Event × Except PyErr Unit
  | _, [] => ([], .ok ())
  | ep, env :: rest =>
      let er := runEpoch hasValid ep env
      match er.2 with
      | .error e => (er.1, .error e)
      | .ok stop =>
          if stop then (er.1, .ok ())
          else
            let r := fitLoop hasValid (ep + 1) rest
            (er.1 ++ r.1, r.2)

/-- Embedding of the module-level `fit`.  `on_train_begin` is dispatched
before the `try` block, so an exception it raises escapes without the
`finally` clause running; inside the `try`, an exception `e` is captured
into the local `exception` (initialised to `False`) and re-raised, and
`finally` always dispatches `on_train_end(exception)` exactly once. -/
def fit (env : FitEnv) : List Event × Except PyErr Unit :=
  match env.trainBeginErr with
  | some e => ([], .error e)
  | none =>
      let r := fitLoop env.hasValidDl 0 env.epochs
      match r.2 with
      | .error e => (Event.trainBegin :: (r.1 ++ [Event.trainEnd (TrainEndVal.excV e)]), .error e)
      | .ok _ => (Event.trainBegin :: (r.1 ++ [Event.trainEnd TrainEndVal.falseV]), .ok ())

/-! ### The `Learner` facade (learner.py lines 40-128)

A layer is abstracted to the two properties the freeze logic observes: the
`isinstance(l, bn_types)` test and the `requires_grad` flag of its
parameters.  The `Learner` object is modelled as the record of attributes
reachable after `__init__`; attributes that `__init__` may leave unset are
`Option`-valued (`none` means the attribute is missing, so reading it
raises `AttributeError`).  `__init__` assigns `weight_decay`,
`true_weight_decay` and `batch_norm_weight_decay`, but the methods read
`wd`, `true_wd` and `bn_wd`, and call `lr_range` and `freeze_to`, which no
code under src defines on the class. -/

/-- A model layer as seen by the freeze/unfreeze logic. -/
structure Layer where
  isBN : Bool
  requiresGrad : Bool
deriving DecidableEq, Repr

/-- A layer group (`nn.Sequential` of layers). -/
abbrev LayerGroup := List Layer

/-- State of the optimizer wrapper created by `create_opt`. -/
structure OptState where
  lrs : List ℚ
  wdVal : ℚ
  trueWd : Bool
  bnWd : Bool
deriving DecidableEq, Repr

/-- A `Learner` object.  Plain fields are always assigned by `__init__`;
`Option`-valued fields model attributes that may be missing: `wd`,
`true_wd` and `bn_wd` are never assigned anywhere under src,
`layer_groups` is assigned only when the constructor argument is falsy,
and `opt` is assigned by `create_opt`. -/
structure LearnerObj where
  weight_decay : ℚ
  true_weight_decay : Bool
  batch_norm_weight_decay : Bool
  train_bn : Bool
  model_dir : String
  wd : Option ℚ
  true_wd : Option Bool
  bn_wd : Option Bool
  layer_groups : Option (List LayerGroup)
  opt : Option OptState

/-- Embedding of `Learner.__init__`.  The model is represented by its
flattened layer list, so `[nn.Sequential(*flatten_model(self.model))]`
becomes the single group `[modelLayers]`.  The constructor assigns
`self.layer_groups` only under `if not layer_groups:`, i.e. when the
argument is `None` or an empty collection. -/
def Learner_init (modelLayers : List Layer) (weight_decay : ℚ)
    (true_weight_decay batch_norm_weight_decay train_bn : Bool)
    (layer_groups : Option (List LayerGroup)) : LearnerObj :=
  { weight_decay := weight_decay
    true_weight_decay := true_weight_decay
    batch_norm_weight_decay := batch_norm_weight_decay
    train_bn := train_bn
    model_dir := "model"
    wd := none
    true_wd := none
    bn_wd := none
    layer_groups :=
      match layer_groups with
      | none => some [modelLayers]
      | some gs => if gs.isEmpty then some [modelLayers] else none
    opt := none }

/-- Learning-rate argument of `Learner.fit`: a scalar or a per-group list. -/
inductive LrArg
  | scalar (lr : ℚ)
  | perGroup (lrs : List ℚ)

/-- Modelled from the spec: `self.lr_range` is called by `Learner.fit`
but is not defined by any code under src.  The spec says fit
"resolves scalar-or-per-layer-group learning rate", so this reads
`self.layer_groups` and expands a scalar to one rate per layer group,
passing an explicit per-group list through. -/
def lr_range (l : LearnerObj) (lr : LrArg) : Except PyErr (List ℚ) :=
  match l.layer_groups with
  | none => .error .attributeError
  | some gs =>
      match lr with
      | .scalar v => .ok (List.replicate gs.length v)
      | .perGroup vs => .ok vs

/-- Embedding of `Learner.create_opt` (lines 72-75): the arguments of
`OptimWrapper.create` are evaluated left to right, reading
`self.layer_groups`, then `self.true_wd`, then `self.bn_wd`; the two
latter attributes are never assigned by `__init__` (which stores
`true_weight_decay` and `batch_norm_weight_decay` instead). -/
def Learner_create_opt (l : LearnerObj) (lrs : List ℚ) (wdv : ℚ) : Except PyErr LearnerObj :=
  match l.layer_groups with
  | none => .error .attributeError
  | some _ =>
      match l.true_wd with
      | none => .error .attributeError
      | some twd =>
          match l.bn_wd with
          | none => .error .attributeError
          | some bwd =>
              .ok { l with opt := some { lrs := lrs, wdVal := wdv, trueWd := twd, bnWd := bwd } }

/-- Embedding of `Learner.fit` (lines 62-70): resolve the learning rate
via `self.lr_range`, default the weight decay from `self.wd` when the
argument is `None`, create the optimizer, then merge the default and
call-supplied callbacks and delegate to the epoch driver.  The callback
merge and the delegation (modelled by the driver `fit` above) are
unreachable for learners as constructed, because an attribute read before
them raises; the method therefore returns the learner with the optimizer
set, at the point where the delegation would happen. -/
def Learner_fit_method (l : LearnerObj) (epochs : Nat) (lrArg : LrArg) (wdArg : Option ℚ)
    (cbs : List Nat) : Except PyErr LearnerObj :=
  match lr_range l lrArg with
  | .error e => .error e
  | .ok lrs =>
      match (match wdArg with
             | none => attrRead l.wd
             | some w => .ok w) with
      | .error e => .error e
      | .ok wdv =>
          match Learner_create_opt l lrs wdv with
          | .error e => .error e
          | .ok l2 =>
              let _ := epochs
              let _ := cbs
              .ok l2

/-- Freeze one layer group: `requires_grad(l, False)` for every layer,
skipped for batch-norm layers when `train_bn` is set
(`if not self.train_bn or not isinstance(l, bn_types)`). -/
def freezeGroup (g : LayerGroup) (train_bn : Bool) : LayerGroup :=
  g.map (fun layer =>
    if !train_bn || !layer.isBN then { layer with requiresGrad := false } else layer)

/-- Python list indexing on layer groups: negative indices count from the
end, out-of-range indices raise `IndexError`. -/
def normIndex (len : Nat) (i : Int) : Option Nat :=
  if 0 ≤ i then (if i < (len : Int) then some i.toNat else none)
  else (if -(len : Int) ≤ i then some (i + (len : Int)).toNat else none)

/-- The freezing loop of `freeze_layer_groups`
(`for i in layer_group_idxs: for l in self.layer_groups[i]: ...`). -/
def freezeListedGroups (train_bn : Bool) : List Int → List LayerGroup →
    Except PyErr (List LayerGroup)
  | [], gs => .ok gs
  | i :: rest, gs =>
      match normIndex gs.length i with
      | none => .error .indexError
      | some n => freezeListedGroups train_bn rest (gs.set n (freezeGroup (gs.getD n []) train_bn))

/-- The call `super().unfreeze()` at the top of `freeze_layer_groups`:
`Learner` is declared with no base class, so `super()` refers to `object`,
which has no `unfreeze` attribute; the call raises `AttributeError`
unconditionally. -/
def superObject_unfreeze : Except PyErr Unit := .error .attributeError

/-- Embedding of `Learner.freeze_layer_groups` (lines 113-119): dispatch
`super().unfreeze()` first — which always raises — then (unreachably)
freeze the listed groups. -/
def Learner_freeze_layer_groups (l : LearnerObj) (idxs : List Int) : Except PyErr LearnerObj :=
  match superObject_unfreeze with
  | .error e => .error e
  | .ok _ =>
      match l.layer_groups with
      | none => .error .attributeError
      | some gs =>
          match freezeListedGroups l.train_bn idxs gs with
          | .error e => .error e
          | .ok gs2 => .ok { l with layer_groups := some gs2 }

/-- Embedding of `Learner.unfreeze_layer_groups` (lines 121-124): compute
`set(range(len(self.layer_groups))) - set(layer_group_idxs)` (taken here
in ascending order; the order is irrelevant because the delegated call
raises before using it) and delegate to `freeze_layer_groups`. -/
def Learner_unfreeze_layer_groups (l : LearnerObj) (idxs : List Int) : Except PyErr LearnerObj :=
  match l.layer_groups with
  | none => .error .attributeError
  | some gs =>
      let toFreeze := ((List.range gs.length).filter
        (fun i => !(idxs.contains ((i : Nat) : Int)))).map (fun i => ((i : Nat) : Int))
      Learner_freeze_layer_groups l toFreeze

/-- Modelled from the spec: `freeze_to` is called by `freeze` and
`unfreeze` but is not defined by any code under src.  Per the spec it
disables gradient computation for the layer groups before the given index
and enables it for the rest, exempting batch-norm layers from freezing
when `train_bn` is set; a negative index counts from the end as in
Python. -/
def Learner_freeze_to (l : LearnerObj) (idx : Int) : Except PyErr LearnerObj :=
  match l.layer_groups with
  | none => .error .attributeError
  | some gs =>
      let cut : Int := if idx < 0 then (gs.length : Int) + idx else idx
      let gs2 := gs.mapIdx (fun i g =>
        if ((i : Nat) : Int) < cut then freezeGroup g l.train_bn
        else g.map (fun layer => { layer with requiresGrad := true }))
      .ok { l with layer_groups := some gs2 }

/-- Embedding of `Learner.freeze` (lines 104-107): the assertion
`assert (len(self.layer_groups) > 1)` raises `AssertionError` before any
gradient-tracking state is touched; otherwise `freeze_to(-1)` runs. -/
def Learner_freeze (l : LearnerObj) : Except PyErr LearnerObj :=
  match l.layer_groups with
  | none => .error .attributeError
  | some gs =>
      if gs.length > 1 then Learner_freeze_to l (-1)
      else .error .assertionError

/-! ### The `Recorder` callback (learner.py lines 210-352)

State of a `Recorder` instance.  The two histories are `defaultdict`
mappings `(phase.name, epoch) -> name -> list of values`, modelled as
total functions (a `defaultdict` read of an absent key yields the empty
list).  `phase` is initialised to `None` by `__init__`; `key` is an
attribute first assigned by `on_batch_begin`, so it is `Option`-valued;
the `BaseRecorder` arrays (`names`, `losses`, `val_losses`, `lrs`,
`moms`, `metrics`, `nb_batches`) are first assigned by `on_train_begin`,
recorded by the `begun` flag — reading them earlier raises
`AttributeError`. -/

/-- History key `(self.phase.name, epoch)`. -/
abbrev RKey := String × Nat

/-- State of a `Recorder` instance. -/
structure RecorderState where
  lossHistory : RKey → String → List ℚ
  metricHistory : RKey → String → List ℚ
  phase : Option Phase
  key : Option RKey
  begun : Bool
  names : List String
  lossesArr : List ℚ
  valLosses : List ℚ
  lrs : List ℚ
  moms : List ℚ
  metricsAcc : List (List ℚ)
  nbBatches : List Nat

/-- The fresh state established by `Recorder.__init__`. -/
def initRecorder : RecorderState :=
  { lossHistory := fun _ _ => []
    metricHistory := fun _ _ => []
    phase := none
    key := none
    begun := false
    names := []
    lossesArr := []
    valLosses := []
    lrs := []
    moms := []
    metricsAcc := []
    nbBatches := [] }

/-- Events delivered to the `Recorder`, carrying the data each handler
reads from its arguments and from the external collaborators:
`trainBegin` carries `metrics_names`; `batchBegin` carries the `train`
flag, `epoch`, `last_target` and the optimizer readings `opt.lr` and
`opt.mom`; `batchEnd` carries the named per-sample loss components
exposed by `loss_func.losses`; `epochEnd` carries `epoch`, `num_batch`,
`smooth_loss` and `last_metrics`. -/
inductive RecEvent
  | trainBegin (metricsNames : List String)
  | batchBegin (train : Bool) (epoch : Nat) (lastTarget : Target) (lr mom : ℚ)
  | batchEnd (lossComponents : List (String × List ℚ))
  | epochEnd (epoch numBatch : Nat) (smoothLoss : ℚ) (lastMetrics : Option (List ℚ))

/-- Constructor test used by the replay condition. -/
def isEpochEndEv : RecEvent → Bool
  | .epochEnd _ _ _ _ => true
  | _ => false

/-- Constructor test used by the replay condition. -/
def isBatchBeginEv : RecEvent → Bool
  | .batchBegin _ _ _ _ _ => true
  | _ => false

/-- Point update of a history mapping: append `vs` to the sequence stored
under key `k` and name `n`. -/
def extendHist (h : RKey → String → List ℚ) (k : RKey) (n : String) (vs : List ℚ) :
    RKey → String → List ℚ :=
  fun kk nn => if kk = k ∧ nn = n then h kk nn ++ vs else h kk nn

/-- Python dict insertion: an existing key keeps its position and gets
the new value, a new key is appended. -/
def dictInsert : List (String × List ℚ) → String → List ℚ → List (String × List ℚ)
  | [], k, v => [(k, v)]
  | p :: rest, k, v =>
      if p.1 = k then (p.1, v) :: rest else p :: dictInsert rest k v

/-- The dict built by `_create_loss_values_for_batch_for_every_samples`:
one entry per component loss, keyed by its class name (a duplicated name
overwrites the earlier value, as in a Python dict). -/
def buildLossDict (comps : List (String × List ℚ)) : List (String × List ℚ) :=
  comps.foldl (fun d p => dictInsert d p.1 p.2) []

/-- Concatenation of the values a dict stores under name `n`, in dict
order; used to describe the effect of folding `extendHist` over a dict. -/
def dictValuesFor (d : List (String × List ℚ)) (n : String) : List ℚ :=
  match d with
  | [] => []
  | p :: rest => (if p.1 = n then p.2 else []) ++ dictValuesFor rest n

/-- The Recorder-specific tail of `on_epoch_end`: when the current phase
is VAL, read `metric_names = self.names[3:]`, build
`zip(metric_names, self.metrics[0])` — evaluating `self.metrics[0]`
raises `IndexError` on an empty list — and append each metric value to
`metric_history[self.key][name]`; `self.key` is only read when the zip is
nonempty. -/
def recEpochEndTail (s : RecorderState) : RecorderState × Option PyErr :=
  if s.phase = some Phase.VAL then
    match s.metricsAcc with
    | [] => (s, some PyErr.indexError)
    | m0 :: _ =>
        match (s.names.drop 3).zip m0, s.key with
        | [], _ => (s, none)
        | _ :: _, none => (s, some PyErr.attributeError)
        | p :: ps, some k =>
            let h2 := ((p :: ps).map (fun q => (q.1, [q.2]))).foldl
              (fun h q => extendHist h k q.1 q.2) s.metricHistory
            ({ s with metricHistory := h2 }, none)
  else (s, none)

/-- One event step of the `Recorder`, returning the updated state and the
exception raised, if any (a raising handler leaves the mutations it made
before the raise in place, as in Python). -/
def stepRecorder (s : RecorderState) (ev : RecEvent) : RecorderState × Option PyErr :=
  match ev with
  | .trainBegin mnames =>
      ({ s with begun := true
                names := ["epoch", "train_loss", "valid_loss"] ++ mnames
                lossesArr := []
                valLosses := []
                lrs := []
                moms := []
                metricsAcc := []
                nbBatches := [] }, none)
  | .batchBegin train epoch tgt lr mom =>
      if train ∧ s.begun = false then (s, some PyErr.attributeError)
      else
        let s1 := if train then { s with lrs := s.lrs ++ [lr], moms := s.moms ++ [mom] } else s
        let ph := determine_phase train tgt "label"
        ({ s1 with phase := some ph, key := some (ph.name, epoch) }, none)
  | .batchEnd comps =>
      match buildLossDict comps, s.key with
      | [], _ => (s, none)
      | _ :: _, none => (s, some PyErr.attributeError)
      | p :: ps, some k =>
          let h2 := (p :: ps).foldl (fun h q => extendHist h k q.1 q.2) s.lossHistory
          ({ s with lossHistory := h2 }, none)
  | .epochEnd _ numBatch _ lastMetrics =>
      if s.begun = false then (s, some PyErr.attributeError)
      else
        let s1 := { s with nbBatches := s.nbBatches ++ [numBatch] }
        match lastMetrics with
        | some [] => (s1, some PyErr.indexError)
        | some (m0 :: mrest) =>
            recEpochEndTail
              { s1 with valLosses := s1.valLosses ++ [m0]
                        metricsAcc := if mrest.isEmpty then s1.metricsAcc
                                      else s1.metricsAcc ++ [mrest] }
        | none => recEpochEndTail s1

/-- Deliver a list of events in order, stopping at the first exception
(which propagates out of the training loop). -/
def runRecorder (s : RecorderState) : List RecEvent → RecorderState × Option PyErr
  | [] => (s, none)
  | ev :: rest =>
      let r := stepRecorder s ev
      match r.2 with
      | some e => (r.1, some e)
      | none => runRecorder r.1 rest

/-! Control abstraction for the replay argument: the history deltas an
event produces, and whether it raises, depend only on the event and on
the control part of the state (`phase`, `key`, `begun`, `names`,
`metricsAcc`), never on the histories themselves. -/

/-- The control part of a `Recorder` state. -/
structure RecCtrl where
  phase : Option Phase
  key : Option RKey
  begun : Bool
  names : List String
  metricsAcc : List (List ℚ)
deriving DecidableEq

/-- Projection to the control part. -/
def ctrlOf (s : RecorderState) : RecCtrl :=
  { phase := s.phase, key := s.key, begun := s.begun, names := s.names,
    metricsAcc := s.metricsAcc }

/-- The value of `self.metrics` right after the `BaseRecorder` part of
`on_epoch_end` ran: `last_metrics[1:]` is appended when it is nonempty. -/
def accAfterSuper (c : RecCtrl) (lastMetrics : Option (List ℚ)) : List (List ℚ) :=
  match lastMetrics with
  | some (_ :: mrest) => if mrest.isEmpty then c.metricsAcc else c.metricsAcc ++ [mrest]
  | _ => c.metricsAcc

/-- Metric-history delta of the Recorder-specific tail of `on_epoch_end`,
as a function of the control state (whose `metricsAcc` is already the
post-super value). -/
def dTail (c : RecCtrl) : RKey → String → List ℚ :=
  if c.phase = some Phase.VAL then
    match c.metricsAcc with
    | [] => fun _ _ => []
    | m0 :: _ =>
        match (c.names.drop 3).zip m0, c.key with
        | [], _ => fun _ _ => []
        | _ :: _, none => fun _ _ => []
        | p :: ps, some k =>
            fun kk nn =>
              if kk = k then dictValuesFor ((p :: ps).map (fun q => (q.1, [q.2]))) nn else []
  else fun _ _ => []

/-- Exception raised by the Recorder-specific tail of `on_epoch_end`. -/
def tailErr (c : RecCtrl) : Option PyErr :=
  if c.phase = some Phase.VAL then
    match c.metricsAcc with
    | [] => some PyErr.indexError
    | m0 :: _ =>
        match (c.names.drop 3).zip m0, c.key with
        | [], _ => none
        | _ :: _, none => some PyErr.attributeError
        | _ :: _, some _ => none
  else none

/-- Loss-history delta of one event, as a function of the control state. -/
def dLoss (c : RecCtrl) (ev : RecEvent) : RKey → String → List ℚ :=
  match ev with
  | .batchEnd comps =>
      match buildLossDict comps, c.key with
      | [], _ => fun _ _ => []
      | _ :: _, none => fun _ _ => []
      | p :: ps, some k => fun kk nn => if kk = k then dictValuesFor (p :: ps) nn else []
  | _ => fun _ _ => []

/-- Metric-history delta of one event, as a function of the control state. -/
def dMetric (c : RecCtrl) (ev : RecEvent) : RKey → String → List ℚ :=
  match ev with
  | .epochEnd _ _ _ lastMetrics =>
      if c.begun = false then fun _ _ => []
      else
        match lastMetrics with
        | some [] => fun _ _ => []
        | _ => dTail { c with metricsAcc := accAfterSuper c lastMetrics }
  | _ => fun _ _ => []

/-- Exception raised by one event, as a function of the control state. -/
def stepErr (c : RecCtrl) (ev : RecEvent) : Option PyErr :=
  match ev with
  | .trainBegin _ => none
  | .batchBegin train _ _ _ _ =>
      if train ∧ c.begun = false then some PyErr.attributeError else none
  | .batchEnd comps =>
      match buildLossDict comps, c.key with
      | [], _ => none
      | _ :: _, none => some PyErr.attributeError
      | _ :: _, some _ => none
  | .epochEnd _ _ _ lastMetrics =>
      if c.begun = false then some PyErr.attributeError
      else
        match lastMetrics with
        | some [] => some PyErr.indexError
        | _ => tailErr { c with metricsAcc := accAfterSuper c lastMetrics }

/-- Control evolution of one event (describes the non-raising outcome). -/
def ctrlStep (c : RecCtrl) (ev : RecEvent) : RecCtrl :=
  match ev with
  | .trainBegin mnames =>
      { c with begun := true
               names := ["epoch", "train_loss", "valid_loss"] ++ mnames
               metricsAcc := [] }
  | .batchBegin train epoch tgt _ _ =>
      let ph := determine_phase train tgt "label"
      { c with phase := some ph, key := some (ph.name, epoch) }
  | .batchEnd _ => c
  | .epochEnd _ _ _ lastMetrics =>
      if c.begun = false then c else { c with metricsAcc := accAfterSuper c lastMetrics }

/-- First exception of a run, computed on the control state. -/
def runErr (c : RecCtrl) : List RecEvent → Option PyErr
  | [] => none
  | ev :: rest =>
      match stepErr c ev with
      | some e => some e
      | none => runErr (ctrlStep c ev) rest

/-- Accumulated loss-history delta of a run (stops at the first
exception), computed on the control state. -/
def runDL (c : RecCtrl) : List RecEvent → RKey → String → List ℚ
  | [] => fun _ _ => []
  | ev :: rest =>
      fun kk nn =>
        dLoss c ev kk nn ++
          (match stepErr c ev with
           | some _ => []
           | none => runDL (ctrlStep c ev) rest kk nn)

/-- Accumulated metric-history delta of a run (stops at the first
exception), computed on the control state. -/
def runDM (c : RecCtrl) : List RecEvent → RKey → String → List ℚ
  | [] => fun _ _ => []
  | ev :: rest =>
      fun kk nn =>
        dMetric c ev kk nn ++
          (match stepErr c ev with
           | some _ => []
           | none => runDM (ctrlStep c ev) rest kk nn)

/-- Control state after a run without exceptions. -/
def runCtrl (c : RecCtrl) : List RecEvent → RecCtrl
  | [] => c
  | ev :: rest =>
      match stepErr c ev with
      | some _ => ctrlStep c ev
      | none => runCtrl (ctrlStep c ev) rest

/-- Simulation relation between the control state of a first replay and
the control state of a second replay: every control component that the
first replay has established is identical in the second. -/
def ctrlInv (c d : RecCtrl) : Prop :=
  (c.begun = true → d.begun = true ∧ c.names = d.names ∧ c.metricsAcc = d.metricsAcc)
  ∧ (∀ k, c.key = some k → d.key = some k)
  ∧ (∀ ph, c.phase = some ph → d.phase = some ph)

/-- Replay condition: every epoch-end event is preceded, within the
sequence itself, by a batch-begin event.  `sawBB` records whether a
batch-begin has already occurred. -/
def eesPreceded : List RecEvent → Bool → Bool
  | [], _ => true
  | ev :: rest, sawBB =>
      (!isEpochEndEv ev || sawBB) && eesPreceded rest (sawBB || isBatchBeginEv ev)

/-- A trace that contains no `on_train_end` invocation. -/
def traceOk (l : List Event) : Prop := ∀ ev ∈ l, isTrainEndEv ev = false

/-! ### Concrete inputs used by witnesses and counterexamples -/

/-- A target dictionary with no label. -/
def tgtNone : Target := fun _ => none

/-- A target dictionary carrying a label. -/
def tgtVal : Target := fun _ => some 0

/-- Two validation batches of sizes 4 and 6 with losses 2 and 1. -/
def dlW : List ValObs := [⟨2, 4, false⟩, ⟨1, 6, false⟩]

/-- A fit environment whose `on_train_begin` dispatch raises. -/
def envTB : FitEnv :=
  { trainBeginErr := some (PyErr.userError 7)
    hasValidDl := false
    epochs := [{ beginErr := none, batches := [BatchOutcome.done false],
                 validOutcome := Except.ok 0, epochEndOutcome := Except.ok false }] }

/-- A fit environment whose second training batch raises mid-epoch. -/
def envC1W : FitEnv :=
  { trainBeginErr := none
    hasValidDl := true
    epochs := [{ beginErr := none
                 batches := [BatchOutcome.done false, BatchOutcome.raises (PyErr.userError 3)]
                 validOutcome := Except.ok 0, epochEndOutcome := Except.ok false }] }

/-- An epoch whose second training batch votes stop, with a validation
outcome available and a non-stopping `on_epoch_end`. -/
def envC3W : EpochEnv :=
  { beginErr := none
    batches := [BatchOutcome.done false, BatchOutcome.done true, BatchOutcome.done false]
    validOutcome := Except.ok 1
    epochEndOutcome := Except.ok false }

/-- A fit environment that completes via a stop vote from `on_epoch_end`. -/
def envC10W : FitEnv :=
  { trainBeginErr := none
    hasValidDl := false
    epochs := [{ beginErr := none, batches := [BatchOutcome.done false],
                 validOutcome := Except.ok 0, epochEndOutcome := Except.ok true }] }

/-- A well-formed recorder event sequence: train begin, one validation
batch with one loss component, then an epoch end carrying metrics. -/
def evs1 : List RecEvent :=
  [RecEvent.trainBegin ["m"],
   RecEvent.batchBegin false 0 tgtVal 0 0,
   RecEvent.batchEnd [("L", [1])],
   RecEvent.epochEnd 0 1 1 (some [2, 3])]

/-- A recorder event sequence whose first epoch-end precedes any
batch-begin: on replay the stale VAL phase of the first pass makes the
leading epoch-end append an extra metric value. -/
def evsBad : List RecEvent :=
  [RecEvent.trainBegin ["m"],
   RecEvent.epochEnd 0 1 1 (some [2, 3]),
   RecEvent.batchBegin false 0 tgtVal 0 0,
   RecEvent.batchEnd [("L", [1])],
   RecEvent.epochEnd 0 1 1 (some [2, 3])]

/-- A learner with a single layer group, as built by the constructor. -/
def lrnOne : LearnerObj := Learner_init [⟨false, true⟩] (1 / 100) true true true none

/-- A learner carrying two layer groups (assigned after construction, as
`training.py` does with `learner.layer_groups = layer_groups`). -/
def lrnTwo : LearnerObj :=
  { weight_decay := 1 / 100
    true_weight_decay := true
    batch_norm_weight_decay := true
    train_bn := true
    model_dir := "model"
    wd := none
    true_wd := none
    bn_wd := none
    layer_groups := some [[⟨false, true⟩], [⟨false, true⟩]]
    opt := none }

/-! ## Theorems -/

/-- C7: for every batch, phase determination returns TRAIN when the
training flag is true; otherwise it returns VAL exactly when the target
carries a non-None label under the key "label", and TEST otherwise. -/
theorem C7_phase_determination (train : Bool) (t : Target) :
    (train = true → determine_phase train t "label" = Phase.TRAIN) ∧
    (train = false → (determine_phase train t "label" = Phase.VAL ↔ t "label" ≠ none)) ∧
    (train = false → (determine_phase train t "label" = Phase.TEST ↔ t "label" = none)) := by
  refine ⟨fun h => by subst h; rfl, fun h => ?_, fun h => ?_⟩ <;>
    (subst h; cases hl : t "label" <;> simp [determine_phase, hl])

/-- Witness for C7 at a concrete unlabeled target. -/
theorem C7_phase_determination_witness :
    (false = false) ∧ (determine_phase false tgtNone "label" = Phase.TEST ↔ tgtNone "label" = none) :=
  ⟨rfl, (C7_phase_determination false tgtNone).2.2 rfl⟩

/-- With no stop votes and no batch cap, the validation loop visits every
batch in order. -/
theorem validateLoop_no_stop (dl : List ValObs) (hns : ∀ b ∈ dl, b.stop = false) :
    ∀ cnt, validateLoop none cnt dl = dl.map (fun b => (b.loss, b.size)) := by
  induction dl with
  | nil => intro cnt; rfl
  | cons b rest ih =>
      intro cnt
      have hb : b.stop = false := hns b (by simp)
      have hrest : ∀ x ∈ rest, x.stop = false := fun x hx => hns x (by simp [hx])
      simp [validateLoop, hb, nBatchCap, ih hrest]

/-- C2: over batches with losses and sizes and no early stop, `validate`
with averaging enabled returns the size-weighted mean
`sum(loss_i * size_i) / sum(size_i)`. -/
theorem C2_validate_weighted_mean (dl : List ValObs)
    (hns : ∀ b ∈ dl, b.stop = false)
    (hpos : 0 < (dl.map (fun b => ((b.size : Nat) : ℚ))).sum) :
    validate dl true none =
      ValResult.avg ((dl.map (fun b => b.loss * ((b.size : Nat) : ℚ))).sum /
        (dl.map (fun b => ((b.size : Nat) : ℚ))).sum) := by
  have h := validateLoop_no_stop dl hns 0
  simp only [validate, h, List.map_map]
  rfl

/-- Witness for C2: sizes (4, 6) with losses (2, 1) give the aggregate
(2*4 + 1*6) / 10 = 1.4 = 7/5. -/
theorem C2_validate_weighted_mean_witness :
    (∀ b ∈ dlW, b.stop = false) ∧ (0 < (dlW.map (fun b => ((b.size : Nat) : ℚ))).sum) ∧
    validate dlW true none = ValResult.avg (7 / 5) := by
  refine ⟨by decide, by norm_num [dlW], ?_⟩
  rw [C2_validate_weighted_mean dlW (by decide) (by norm_num [dlW])]
  norm_num [dlW]

/-- C4 (code bug): for every learner as built by `__init__` and every
argument combination, `Learner.fit` raises `AttributeError`: it reads
`self.lr_range` / `self.wd` / `self.true_wd` / `self.bn_wd`, none of
which the constructor defines (it stores `weight_decay`,
`true_weight_decay` and `batch_norm_weight_decay` instead), so the
optimizer is never created and the epoch driver is never reached. -/
theorem C4_fit_reads_missing_attributes :
    ∀ (modelLayers : List Layer) (wdec : ℚ) (twd bnw tbn : Bool)
      (lgArg : Option (List LayerGroup)) (epochs : Nat) (lrArg : LrArg) (wdArg : Option ℚ)
      (cbs : List Nat),
      Learner_fit_method (Learner_init modelLayers wdec twd bnw tbn lgArg) epochs lrArg wdArg cbs
        = .error PyErr.attributeError := by
  intro modelLayers wdec twd bnw tbn lgArg epochs lrArg wdArg cbs
  rcases lgArg with _ | gs
  · cases lrArg <;> cases wdArg <;>
      simp [Learner_fit_method, Learner_init, lr_range, attrRead, Learner_create_opt]
  · by_cases hgs : gs.isEmpty <;> cases lrArg <;> cases wdArg <;>
      simp [Learner_fit_method, Learner_init, lr_range, hgs, attrRead, Learner_create_opt]

/-- C5 (code bug): `freeze_layer_groups` raises `AttributeError` on every
input because its first statement `super().unfreeze()` resolves against
`object`, which has no `unfreeze`; `unfreeze_layer_groups` delegates to
it and therefore raises as well, so neither ever reaches the
gradient-flag mutations the spec describes. -/
theorem C5_freeze_layer_groups_raises :
    ∀ (l : LearnerObj) (idxs : List Int),
      Learner_freeze_layer_groups l idxs = .error PyErr.attributeError ∧
      Learner_unfreeze_layer_groups l idxs = .error PyErr.attributeError := by
  intro l idxs
  refine ⟨rfl, ?_⟩
  rcases hg : l.layer_groups with _ | gs <;>
    simp [Learner_unfreeze_layer_groups, hg, Learner_freeze_layer_groups, superObject_unfreeze]

/-- C8: `freeze()` on a learner with exactly one layer group fails with
the assertion `assert (len(self.layer_groups) > 1)` before any
gradient-tracking state is mutated (the error result carries no updated
learner); with more than one group that precondition violation is not
raised. -/
theorem C8_freeze_precondition (l : LearnerObj) (gs : List LayerGroup)
    (h : l.layer_groups = some gs) :
    (gs.length = 1 → Learner_freeze l = .error PyErr.assertionError) ∧
    (1 < gs.length → Learner_freeze l ≠ .error PyErr.assertionError) := by
  constructor
  · intro h1
    simp [Learner_freeze, h, h1]
  · intro h1
    have h2 : Learner_freeze l = Learner_freeze_to l (-1) := by
      simp [Learner_freeze, h, h1]
    rw [h2]
    simp [Learner_freeze_to, h]

/-- Witness for C8 at a concrete single-group learner. -/
theorem C8_freeze_precondition_witness :
    lrnOne.layer_groups = some [[⟨false, true⟩]] ∧
    (([[⟨false, true⟩]] : List LayerGroup).length = 1) ∧
    Learner_freeze lrnOne = .error PyErr.assertionError :=
  ⟨rfl, rfl, (C8_freeze_precondition lrnOne [[⟨false, true⟩]] rfl).1 rfl⟩

/-- C9: the constructor assigns `layer_groups` only when the argument is
absent or falsy (producing the single flattened group); with a non-empty
argument the attribute is never assigned, so the supplied grouping is not
stored and reading `self.layer_groups` afterwards raises
`AttributeError`. -/
theorem C9_constructor_layer_groups :
    ∀ (modelLayers : List Layer) (wdec : ℚ) (twd bnw tbn : Bool),
      ((Learner_init modelLayers wdec twd bnw tbn none).layer_groups = some [modelLayers]) ∧
      ((Learner_init modelLayers wdec twd bnw tbn (some [])).layer_groups = some [modelLayers]) ∧
      (∀ gs : List LayerGroup, gs ≠ [] →
        (Learner_init modelLayers wdec twd bnw tbn (some gs)).layer_groups = none ∧
        attrRead (Learner_init modelLayers wdec twd bnw tbn (some gs)).layer_groups
          = .error PyErr.attributeError) := by
  intro modelLayers wdec twd bnw tbn
  refine ⟨rfl, rfl, fun gs hgs => ?_⟩
  have hne : gs.isEmpty = false := by
    cases gs with
    | nil => exact absurd rfl hgs
    | cons a l => rfl
  exact ⟨by simp [Learner_init, hne], by simp [Learner_init, hne, attrRead]⟩

/-- Witness for C9 at a concrete non-empty layer grouping. -/
theorem C9_constructor_layer_groups_witness :
    (([[⟨false, true⟩]] : List LayerGroup) ≠ []) ∧
    (Learner_init [] 0 true true true (some [[⟨false, true⟩]])).layer_groups = none :=
  ⟨by decide, ((C9_constructor_layer_groups [] 0 true true true).2.2 [[⟨false, true⟩]]
    (by decide)).1⟩

/-! ### Epoch driver lemmas -/

/-- Traces never contain `on_train_end` events below the level of `fit`:
the batch loop. -/
theorem runBatches_traceOk (ep : Nat) :
    ∀ (i : Nat) (bs : List BatchOutcome), traceOk (runBatches ep i bs).1 := by
  intro i bs
  induction bs generalizing i with
  | nil => intro ev h; simp [runBatches] at h
  | cons b rest ih =>
      intro ev h
      cases b with
      | raises e => simp [runBatches] at h
      | done stop =>
          cases stop with
          | true =>
              simp [runBatches] at h
              subst h; rfl
          | false =>
              simp [runBatches] at h
              rcases h with h | h
              · subst h; rfl
              · exact ih (i + 1) ev h

/-- The empty trace contains no `on_train_end` events. -/
theorem traceOk_nil : traceOk [] := by
  intro ev h
  simp at h

/-- Prepending a non-`on_train_end` event preserves `traceOk`. -/
theorem traceOk_cons {ev : Event} {l : List Event} (h1 : isTrainEndEv ev = false)
    (h2 : traceOk l) : traceOk (ev :: l) := by
  intro x hx
  rcases List.mem_cons.mp hx with h | h
  · subst h; exact h1
  · exact h2 x h

/-- Concatenation preserves `traceOk`. -/
theorem traceOk_append {l1 l2 : List Event} (h1 : traceOk l1) (h2 : traceOk l2) :
    traceOk (l1 ++ l2) := by
  intro x hx
  rcases List.mem_append.mp hx with h | h
  · exact h1 x h
  · exact h2 x h

/-- Traces never contain `on_train_end` events below the level of `fit`:
one epoch. -/
theorem runEpoch_traceOk (hv : Bool) (ep : Nat) (env : EpochEnv) :
    traceOk (runEpoch hv ep env).1 := by
  rcases hbe : env.beginErr with _ | e <;>
    rcases hbr : (runBatches ep 0 env.batches).2 with be | u <;>
    rcases hval : env.validOutcome with ve | vq <;>
    rcases hee : env.epochEndOutcome with ee | stop <;>
    cases hv <;>
    simp only [runEpoch, hbe, hbr, hval, hee] <;>
    repeat
      first
      | exact traceOk_nil
      | exact runBatches_traceOk ep 0 env.batches
      | refine traceOk_append ?_ ?_
      | refine traceOk_cons rfl ?_

/-- Traces never contain `on_train_end` events below the level of `fit`:
the epoch loop. -/
theorem fitLoop_traceOk (hv : Bool) :
    ∀ (ep : Nat) (envs : List EpochEnv), traceOk (fitLoop hv ep envs).1 := by
  intro ep envs
  induction envs generalizing ep with
  | nil => intro ev h; simp [fitLoop] at h
  | cons env rest ih =>
      intro ev hev
      have hepoch := runEpoch_traceOk hv ep env
      rcases her : (runEpoch hv ep env).2 with e | stop
      · simp [fitLoop, her] at hev
        exact hepoch ev hev
      · cases stop with
        | true =>
            simp [fitLoop, her] at hev
            exact hepoch ev hev
        | false =>
            simp [fitLoop, her] at hev
            rcases hev with h | h
            · exact hepoch ev h
            · exact ih (ep + 1) ev h

/-- A trace with no `on_train_end` events filters to the empty list. -/
theorem traceOk_filter (l : List Event) (h : traceOk l) : l.filter isTrainEndEv = [] := by
  induction l with
  | nil => rfl
  | cons ev rest ih =>
      have h1 : isTrainEndEv ev = false := h ev (by simp)
      have h2 : traceOk rest := fun x hx => h x (by simp [hx])
      simp [List.filter_cons, h1, ih h2]

/-- C1 counterexample: when `on_train_begin` itself raises (an exception
during callback dispatch), the exception escapes to the caller but
`on_train_end` is never invoked, refuting "invoked exactly once". -/
theorem C1_counterexample :
    (fit envTB).2 = .error (PyErr.userError 7) ∧ (fit envTB).1.filter isTrainEndEv = [] :=
  ⟨rfl, rfl⟩

/-- C1 (amended): for any exception raised inside the epoch loop — that
is, after `on_train_begin` has returned — the loop is aborted,
`on_train_end` is invoked exactly once with the captured exception, it is
the last dispatched event, and the same exception is re-raised to the
caller. -/
theorem C1_exception_finalization (env : FitEnv) (e : PyErr)
    (hb : env.trainBeginErr = none)
    (herr : (fitLoop env.hasValidDl 0 env.epochs).2 = .error e) :
    (fit env).2 = .error e ∧
    (fit env).1.filter isTrainEndEv = [Event.trainEnd (TrainEndVal.excV e)] ∧
    (fit env).1.getLast? = some (Event.trainEnd (TrainEndVal.excV e)) := by
  have hff : fit env =
      (Event.trainBegin ::
        ((fitLoop env.hasValidDl 0 env.epochs).1 ++ [Event.trainEnd (TrainEndVal.excV e)]),
        .error e) := by
    simp [fit, hb, herr]
  rw [hff]
  have h0 : (fitLoop env.hasValidDl 0 env.epochs).1.filter isTrainEndEv = [] :=
    traceOk_filter _ (fitLoop_traceOk env.hasValidDl 0 env.epochs)
  refine ⟨rfl, ?_, ?_⟩
  · simp [List.filter_cons, List.filter_append, isTrainEndEv, h0]
  · rw [← List.cons_append]
    exact List.getLast?_concat _

/-- Witness for the amended C1: a run whose second training batch raises. -/
theorem C1_exception_finalization_witness :
    envC1W.trainBeginErr = none ∧
    (fitLoop envC1W.hasValidDl 0 envC1W.epochs).2 = .error (PyErr.userError 3) ∧
    (fit envC1W).1.filter isTrainEndEv =
      [Event.trainEnd (TrainEndVal.excV (PyErr.userError 3))] :=
  ⟨rfl, rfl, (C1_exception_finalization envC1W (PyErr.userError 3) rfl rfl).2.1⟩

/-- When the batches are a false-voting prefix, a stop-voting batch, and
a remainder, the batch loop processes exactly the prefix and the stopping
batch, then breaks. -/
theorem runBatches_stop_trace (ep : Nat) (post : List BatchOutcome) :
    ∀ (pre : List BatchOutcome), (∀ b ∈ pre, b = BatchOutcome.done false) →
    ∀ i, runBatches ep i (pre ++ BatchOutcome.done true :: post) =
      ((List.range' i (pre.length + 1)).map (Event.batchDone ep), .ok ()) := by
  intro pre
  induction pre with
  | nil =>
      intro _ i
      simp [runBatches, List.range'_succ]
  | cons b rest ih =>
      intro hpre i
      have hb : b = BatchOutcome.done false := hpre b (by simp)
      subst hb
      have hrest : ∀ x ∈ rest, x = BatchOutcome.done false := fun x hx => hpre x (by simp [hx])
      simp [runBatches, ih hrest (i + 1), List.range'_succ]

/-- C3: if `on_batch_end` votes stop on some training batch of an epoch,
only the remaining training batches of that epoch are abandoned:
validation still executes afterwards when a validation loader exists,
`on_epoch_end` still fires for that epoch, and the following epochs are
abandoned exactly when `on_epoch_end` itself votes stop. -/
theorem C3_stop_scope (hasValid : Bool) (ep : Nat) (pre post : List BatchOutcome)
    (env : EpochEnv) (rest : List EpochEnv) (v : ℚ) (stop : Bool)
    (hb : env.beginErr = none)
    (hbs : env.batches = pre ++ BatchOutcome.done true :: post)
    (hpre : ∀ b ∈ pre, b = BatchOutcome.done false)
    (hv : env.validOutcome = .ok v)
    (he : env.epochEndOutcome = .ok stop) :
    runEpoch hasValid ep env =
      ((Event.epochBegin ep :: (List.range (pre.length + 1)).map (Event.batchDone ep))
        ++ ((if hasValid then [Event.validateRun ep] else []) ++ [Event.epochEnd ep]),
        .ok stop) ∧
    fitLoop hasValid ep (env :: rest) =
      (if stop then ((runEpoch hasValid ep env).1, Except.ok ())
       else ((runEpoch hasValid ep env).1 ++ (fitLoop hasValid (ep + 1) rest).1,
             (fitLoop hasValid (ep + 1) rest).2)) := by
  have hbatches : runBatches ep 0 env.batches
      = ((List.range (pre.length + 1)).map (Event.batchDone ep), Except.ok ()) := by
    rw [hbs, runBatches_stop_trace ep post pre hpre 0, List.range_eq_range']
  have h1 : runEpoch hasValid ep env =
      ((Event.epochBegin ep :: (List.range (pre.length + 1)).map (Event.batchDone ep))
        ++ ((if hasValid then [Event.validateRun ep] else []) ++ [Event.epochEnd ep]),
        .ok stop) := by
    cases hasValid <;>
      simp [runEpoch, hb, hbatches, hv, he]
  refine ⟨h1, ?_⟩
  cases stop <;> simp [fitLoop, h1]

/-- Witness for C3: a stop vote on the second of three training batches,
with a validation loader present and a non-stopping epoch end. -/
theorem C3_stop_scope_witness :
    envC3W.beginErr = none ∧
    envC3W.batches =
      [BatchOutcome.done false] ++ BatchOutcome.done true :: [BatchOutcome.done false] ∧
    (∀ b ∈ [BatchOutcome.done false], b = BatchOutcome.done false) ∧
    envC3W.validOutcome = .ok 1 ∧
    envC3W.epochEndOutcome = .ok false ∧
    runEpoch true 0 envC3W =
      ((Event.epochBegin 0 ::
          (List.range (([BatchOutcome.done false] : List BatchOutcome).length + 1)).map
            (Event.batchDone 0))
        ++ ((if true then [Event.validateRun 0] else []) ++ [Event.epochEnd 0]),
        .ok false) :=
  ⟨rfl, rfl, by decide, rfl, rfl,
    (C3_stop_scope true 0 [BatchOutcome.done false] [BatchOutcome.done false] envC3W []
      1 false rfl rfl (by decide) rfl rfl).1⟩

/-- C10: when the epoch loop finishes without an exception — either by
exhausting all epochs or via a callback-requested stop — `on_train_end`
is dispatched exactly once, with the boolean literal `False` the local
`exception` variable was initialised to, not with `None`. -/
theorem C10_train_end_false (env : FitEnv)
    (hb : env.trainBeginErr = none)
    (hok : (fitLoop env.hasValidDl 0 env.epochs).2 = .ok ()) :
    (fit env).2 = .ok () ∧
    (fit env).1.filter isTrainEndEv = [Event.trainEnd TrainEndVal.falseV] := by
  have hff : fit env =
      (Event.trainBegin ::
        ((fitLoop env.hasValidDl 0 env.epochs).1 ++ [Event.trainEnd TrainEndVal.falseV]),
        .ok ()) := by
    simp [fit, hb, hok]
  rw [hff]
  have h0 : (fitLoop env.hasValidDl 0 env.epochs).1.filter isTrainEndEv = [] :=
    traceOk_filter _ (fitLoop_traceOk env.hasValidDl 0 env.epochs)
  exact ⟨rfl, by simp [List.filter_cons, List.filter_append, isTrainEndEv, h0]⟩

/-- Witness for C10: a run that stops via `on_epoch_end` voting stop. -/
theorem C10_train_end_false_witness :
    envC10W.trainBeginErr = none ∧
    (fitLoop envC10W.hasValidDl 0 envC10W.epochs).2 = .ok () ∧
    (fit envC10W).1.filter isTrainEndEv = [Event.trainEnd TrainEndVal.falseV] :=
  ⟨rfl, rfl, (C10_train_end_false envC10W rfl rfl).2⟩

/-! ### Recorder lemmas -/

/-- Folding `extendHist` at a fixed key over a dict appends, under that
key and each name, the concatenation of the dict values stored for the
name; every other entry is untouched. -/
theorem foldExtend_apply (d : List (String × List ℚ)) (k kk : RKey) (nn : String) :
    ∀ (h : RKey → String → List ℚ),
      (d.foldl (fun h2 q => extendHist h2 k q.1 q.2) h) kk nn
        = h kk nn ++ (if kk = k then dictValuesFor d nn else []) := by
  induction d with
  | nil =>
      intro h
      by_cases hk : kk = k <;> simp [dictValuesFor, hk]
  | cons p rest ih =>
      intro h
      simp only [List.foldl_cons]
      rw [ih]
      by_cases hk : kk = k
      · by_cases hn : nn = p.1
        · simp [extendHist, dictValuesFor, hk, hn, List.append_assoc]
        · have hn2 : ¬ (p.1 = nn) := fun h2 => hn h2.symm
          simp [extendHist, dictValuesFor, hk, hn, hn2]
      · simp [extendHist, dictValuesFor, hk]

/-- Characterization of the Recorder-specific tail of `on_epoch_end`:
it leaves the loss history unchanged, appends `dTail` to the metric
history, reports `tailErr`, and leaves the control state unchanged. -/
theorem recEpochEndTail_char (s : RecorderState) :
    (∀ kk nn, (recEpochEndTail s).1.lossHistory kk nn = s.lossHistory kk nn)
  ∧ (∀ kk nn, (recEpochEndTail s).1.metricHistory kk nn
      = s.metricHistory kk nn ++ dTail (ctrlOf s) kk nn)
  ∧ ((recEpochEndTail s).2 = tailErr (ctrlOf s))
  ∧ (ctrlOf (recEpochEndTail s).1 = ctrlOf s) := by
  by_cases hph : s.phase = some Phase.VAL
  · rcases hacc : s.metricsAcc with _ | ⟨m0, accrest⟩
    · refine ⟨fun kk nn => ?_, fun kk nn => ?_, ?_, ?_⟩ <;>
        simp [recEpochEndTail, dTail, tailErr, ctrlOf, hph, hacc]
    · rcases hz : (s.names.drop 3).zip m0 with _ | ⟨p, ps⟩
      · refine ⟨fun kk nn => ?_, fun kk nn => ?_, ?_, ?_⟩ <;>
          simp [recEpochEndTail, dTail, tailErr, ctrlOf, hph, hacc, hz]
      · rcases hkey : s.key with _ | k
        · refine ⟨fun kk nn => ?_, fun kk nn => ?_, ?_, ?_⟩ <;>
            simp [recEpochEndTail, dTail, tailErr, ctrlOf, hph, hacc, hz, hkey]
        · refine ⟨fun kk nn => ?_, fun kk nn => ?_, ?_, ?_⟩
          · simp [recEpochEndTail, hph, hacc, hz, hkey]
          · have hfold := foldExtend_apply ((p :: ps).map (fun q => (q.1, [q.2]))) k kk nn
              s.metricHistory
            have hd : dTail (ctrlOf s) kk nn
                = (if kk = k then dictValuesFor ((p :: ps).map (fun q => (q.1, [q.2]))) nn
                   else []) := by
              simp [dTail, ctrlOf, hph, hacc, hz, hkey]
            simp only [recEpochEndTail, hph, hacc, hz, hkey, if_true]
            rw [hd]
            exact hfold
          · simp [recEpochEndTail, tailErr, ctrlOf, hph, hacc, hz, hkey]
          · simp [recEpochEndTail, ctrlOf, hph, hacc, hz, hkey]
  · refine ⟨fun kk nn => ?_, fun kk nn => ?_, ?_, ?_⟩ <;>
      simp [recEpochEndTail, dTail, tailErr, ctrlOf, hph]

/-- Characterization of one Recorder step: each event appends `dLoss` to
the loss history and `dMetric` to the metric history, raises `stepErr`,
and (when it does not raise) moves the control state by `ctrlStep`. -/
theorem stepRecorder_char (s : RecorderState) (ev : RecEvent) :
    (∀ kk nn, (stepRecorder s ev).1.lossHistory kk nn
        = s.lossHistory kk nn ++ dLoss (ctrlOf s) ev kk nn)
  ∧ (∀ kk nn, (stepRecorder s ev).1.metricHistory kk nn
        = s.metricHistory kk nn ++ dMetric (ctrlOf s) ev kk nn)
  ∧ ((stepRecorder s ev).2 = stepErr (ctrlOf s) ev)
  ∧ ((stepRecorder s ev).2 = none → ctrlOf (stepRecorder s ev).1 = ctrlStep (ctrlOf s) ev) := by
  cases ev with
  | trainBegin mnames =>
      exact ⟨fun kk nn => by simp [stepRecorder, dLoss],
        fun kk nn => by simp [stepRecorder, dMetric],
        by simp [stepRecorder, stepErr],
        fun _ => by simp [stepRecorder, ctrlStep, ctrlOf]⟩
  | batchBegin train epoch tgt lr mom =>
      by_cases hc : train ∧ s.begun = false
      · refine ⟨fun kk nn => ?_, fun kk nn => ?_, ?_, fun hno => ?_⟩
        · simp [stepRecorder, dLoss, hc]
        · simp [stepRecorder, dMetric, hc]
        · simp [stepRecorder, stepErr, ctrlOf, hc]
        · simp [stepRecorder, hc] at hno
      · have hcases : train = false ∨ (train = true ∧ s.begun = true) := by
          cases ht : train
          · exact Or.inl rfl
          · cases hb2 : s.begun
            · exact absurd ⟨ht, hb2⟩ hc
            · exact Or.inr ⟨rfl, rfl⟩
        refine ⟨fun kk nn => ?_, fun kk nn => ?_, ?_, fun _ => ?_⟩ <;>
          rcases hcases with ht | ⟨ht, hsb⟩ <;>
          simp [stepRecorder, dLoss, dMetric, stepErr, ctrlStep, ctrlOf, ht, *]
  | batchEnd comps =>
      rcases hd : buildLossDict comps with _ | ⟨p, ps⟩
      · exact ⟨fun kk nn => by simp [stepRecorder, dLoss, hd],
          fun kk nn => by simp [stepRecorder, dMetric, hd],
          by simp [stepRecorder, stepErr, hd],
          fun _ => by simp [stepRecorder, ctrlStep, ctrlOf, hd]⟩
      · rcases hk : s.key with _ | k
        · refine ⟨fun kk nn => ?_, fun kk nn => ?_, ?_, fun hno => ?_⟩
          · simp [stepRecorder, dLoss, ctrlOf, hd, hk]
          · simp [stepRecorder, dMetric, hd, hk]
          · simp [stepRecorder, stepErr, ctrlOf, hd, hk]
          · simp [stepRecorder, hd, hk] at hno
        · refine ⟨fun kk nn => ?_, fun kk nn => ?_, ?_, fun _ => ?_⟩
          · have hfold := foldExtend_apply (p :: ps) k kk nn s.lossHistory
            have hdl : dLoss (ctrlOf s) (RecEvent.batchEnd comps) kk nn
                = (if kk = k then dictValuesFor (p :: ps) nn else []) := by
              simp [dLoss, ctrlOf, hd, hk]
            simp only [stepRecorder, hd, hk]
            rw [hdl]
            exact hfold
          · simp [stepRecorder, dMetric, hd, hk]
          · simp [stepRecorder, stepErr, ctrlOf, hd, hk]
          · simp [stepRecorder, ctrlStep, ctrlOf, hd, hk]
  | epochEnd epoch nb sl lm =>
      cases hbg : s.begun with
      | false =>
          refine ⟨fun kk nn => ?_, fun kk nn => ?_, ?_, fun hno => ?_⟩
          · simp [stepRecorder, dLoss, hbg]
          · simp [stepRecorder, dMetric, ctrlOf, hbg]
          · simp [stepRecorder, stepErr, ctrlOf, hbg]
          · simp [stepRecorder, hbg] at hno
      | true =>
          have hnb : ¬ (s.begun = false) := by simp [hbg]
          rcases lm with _ | ms
          · have hchar := recEpochEndTail_char { s with nbBatches := s.nbBatches ++ [nb] }
            refine ⟨fun kk nn => ?_, fun kk nn => ?_, ?_, fun _ => ?_⟩
            · simp only [stepRecorder, if_neg hnb]
              rw [hchar.1 kk nn]
              simp [dLoss]
            · simp only [stepRecorder, if_neg hnb]
              rw [hchar.2.1 kk nn]
              have hdm : dMetric (ctrlOf s) (RecEvent.epochEnd epoch nb sl none) kk nn
                  = dTail (ctrlOf s) kk nn := by
                simp only [dMetric, ctrlOf, hbg]
                rfl
              rw [hdm]
              rfl
            · simp only [stepRecorder, if_neg hnb]
              rw [hchar.2.2.1]
              simp only [stepErr, ctrlOf, hbg]
              rfl
            · simp only [stepRecorder, if_neg hnb]
              rw [hchar.2.2.2]
              simp only [ctrlStep, ctrlOf, hbg]
              rfl
          · rcases ms with _ | ⟨m0, mrest⟩
            · refine ⟨fun kk nn => ?_, fun kk nn => ?_, ?_, fun hno => ?_⟩
              · simp only [stepRecorder, if_neg hnb]
                simp [dLoss]
              · simp only [stepRecorder, if_neg hnb]
                simp [dMetric, ctrlOf, hbg]
              · simp only [stepRecorder, if_neg hnb]
                simp [stepErr, ctrlOf, hbg]
              · simp only [stepRecorder, if_neg hnb] at hno
                simp at hno
            · have hchar := recEpochEndTail_char
                { s with nbBatches := s.nbBatches ++ [nb]
                         valLosses := s.valLosses ++ [m0]
                         metricsAcc := if mrest.isEmpty then s.metricsAcc
                                       else s.metricsAcc ++ [mrest] }
              refine ⟨fun kk nn => ?_, fun kk nn => ?_, ?_, fun _ => ?_⟩
              · simp only [stepRecorder, if_neg hnb]
                rw [hchar.1 kk nn]
                simp [dLoss]
              · simp only [stepRecorder, if_neg hnb]
                rw [hchar.2.1 kk nn]
                have hdm : dMetric (ctrlOf s) (RecEvent.epochEnd epoch nb sl (some (m0 :: mrest)))
                      kk nn
                    = dTail { ctrlOf s with
                        metricsAcc := accAfterSuper (ctrlOf s) (some (m0 :: mrest)) } kk nn := by
                  simp only [dMetric, ctrlOf, hbg]
                  rfl
                rw [hdm]
                rfl
              · simp only [stepRecorder, if_neg hnb]
                rw [hchar.2.2.1]
                simp only [stepErr, ctrlOf, hbg]
                rfl
              · simp only [stepRecorder, if_neg hnb]
                rw [hchar.2.2.2]
                simp only [ctrlStep, ctrlOf, hbg]
                rfl

/-- Characterization of a Recorder run: histories only grow by the
accumulated deltas, the first exception is `runErr`, and without an
exception the control state evolves by `runCtrl`. -/
theorem runRecorder_char (evs : List RecEvent) : ∀ (s : RecorderState),
    (∀ kk nn, (runRecorder s evs).1.lossHistory kk nn
        = s.lossHistory kk nn ++ runDL (ctrlOf s) evs kk nn)
  ∧ (∀ kk nn, (runRecorder s evs).1.metricHistory kk nn
        = s.metricHistory kk nn ++ runDM (ctrlOf s) evs kk nn)
  ∧ ((runRecorder s evs).2 = runErr (ctrlOf s) evs)
  ∧ ((runRecorder s evs).2 = none → ctrlOf (runRecorder s evs).1 = runCtrl (ctrlOf s) evs) := by
  induction evs with
  | nil =>
      intro s
      exact ⟨fun kk nn => by simp [runRecorder, runDL],
        fun kk nn => by simp [runRecorder, runDM],
        rfl, fun _ => rfl⟩
  | cons ev rest ih =>
      intro s
      obtain ⟨hL, hM, hE, hC⟩ := stepRecorder_char s ev
      rcases herr : (stepRecorder s ev).2 with _ | e
      · have hc := hC herr
        have hse : stepErr (ctrlOf s) ev = none := by rw [← hE]; exact herr
        obtain ⟨ihL, ihM, ihE, ihC⟩ := ih (stepRecorder s ev).1
        have hrun : runRecorder s (ev :: rest) = runRecorder (stepRecorder s ev).1 rest := by
          simp [runRecorder, herr]
        refine ⟨fun kk nn => ?_, fun kk nn => ?_, ?_, fun hno => ?_⟩
        · rw [hrun, ihL kk nn, hL kk nn, hc]
          simp [runDL, hse, List.append_assoc]
        · rw [hrun, ihM kk nn, hM kk nn, hc]
          simp [runDM, hse, List.append_assoc]
        · rw [hrun, ihE, hc]
          simp [runErr, hse]
        · rw [hrun] at hno ⊢
          rw [ihC hno, hc]
          simp [runCtrl, hse]
      · have hse : stepErr (ctrlOf s) ev = some e := by rw [← hE]; exact herr
        have hrun : runRecorder s (ev :: rest) = ((stepRecorder s ev).1, some e) := by
          simp [runRecorder, herr]
        refine ⟨fun kk nn => ?_, fun kk nn => ?_, ?_, fun hno => ?_⟩
        · rw [hrun]
          show (stepRecorder s ev).1.lossHistory kk nn = _
          rw [hL kk nn]
          simp [runDL, hse]
        · rw [hrun]
          show (stepRecorder s ev).1.metricHistory kk nn = _
          rw [hM kk nn]
          simp [runDM, hse]
        · rw [hrun]
          simp [runErr, hse]
        · rw [hrun] at hno
          exact absurd hno (by simp)

/-- Splitting a run at an exception-free prefix: errors, control and
deltas compose. -/
theorem run_append (l1 : List RecEvent) : ∀ (l2 : List RecEvent) (c : RecCtrl),
    runErr c l1 = none →
    (runErr c (l1 ++ l2) = runErr (runCtrl c l1) l2)
  ∧ (runCtrl c (l1 ++ l2) = runCtrl (runCtrl c l1) l2)
  ∧ (∀ kk nn, runDL c (l1 ++ l2) kk nn = runDL c l1 kk nn ++ runDL (runCtrl c l1) l2 kk nn)
  ∧ (∀ kk nn, runDM c (l1 ++ l2) kk nn = runDM c l1 kk nn ++ runDM (runCtrl c l1) l2 kk nn) := by
  induction l1 with
  | nil =>
      intro l2 c _
      exact ⟨rfl, rfl, fun kk nn => by simp [runDL, runCtrl], fun kk nn => by simp [runDM, runCtrl]⟩
  | cons ev rest ih =>
      intro l2 c hok
      rcases hse : stepErr c ev with _ | e
      · have hok2 : runErr (ctrlStep c ev) rest = none := by
          rw [runErr, hse] at hok
          exact hok
        obtain ⟨iE, iC, iL, iM⟩ := ih l2 (ctrlStep c ev) hok2
        refine ⟨?_, ?_, fun kk nn => ?_, fun kk nn => ?_⟩
        · simp [runErr, hse, iE, runCtrl]
        · simp [runCtrl, hse, iC]
        · simp [runDL, hse, iL kk nn, List.append_assoc, runCtrl]
        · simp [runDM, hse, iM kk nn, List.append_assoc, runCtrl]
      · exfalso
        rw [runErr, hse] at hok
        exact Option.noConfusion hok

/-- `ctrlStep` never unsets an established phase or key. -/
theorem ctrlStep_preserves_some (c : RecCtrl) (ev : RecEvent) :
    (c.phase.isSome → (ctrlStep c ev).phase.isSome)
  ∧ (c.key.isSome → (ctrlStep c ev).key.isSome) := by
  cases ev with
  | trainBegin mnames => exact ⟨fun h => h, fun h => h⟩
  | batchBegin train epoch tgt lr mom => exact ⟨fun _ => by simp [ctrlStep], fun _ => by simp [ctrlStep]⟩
  | batchEnd comps => exact ⟨fun h => h, fun h => h⟩
  | epochEnd a b d lm =>
      constructor <;> intro h <;> simp only [ctrlStep] <;>
        (by_cases hbg : c.begun = false <;> simp [hbg, h])

/-- Simulation for the Recorder-specific tail of `on_epoch_end`: two
control states agreeing on phase, names, accumulated metrics and any
established key produce the same metric delta, and the second does not
raise when the first does not. -/
theorem dTail_sim (c2 d2 : RecCtrl) (ph0 : Phase)
    (hp : c2.phase = some ph0) (hq : d2.phase = some ph0)
    (hn : c2.names = d2.names) (ha : c2.metricsAcc = d2.metricsAcc)
    (hkeyimp : ∀ k, c2.key = some k → d2.key = some k)
    (hok : tailErr c2 = none) :
    tailErr d2 = none ∧ ∀ kk nn, dTail c2 kk nn = dTail d2 kk nn := by
  by_cases hval : ph0 = Phase.VAL
  · subst hval
    rcases hacc : c2.metricsAcc with _ | ⟨m0, ar⟩
    · exfalso
      simp [tailErr, hp, hacc] at hok
    · have hacc2 : d2.metricsAcc = m0 :: ar := by rw [← ha, hacc]
      rcases hz : (c2.names.drop 3).zip m0 with _ | ⟨p, ps⟩
      · have hz2 : (d2.names.drop 3).zip m0 = [] := by rw [← hn]; exact hz
        exact ⟨by simp [tailErr, hq, hacc2, hz2],
          fun kk nn => by simp [dTail, hp, hq, hacc, hacc2, hz, hz2]⟩
      · have hz2 : (d2.names.drop 3).zip m0 = p :: ps := by rw [← hn]; exact hz
        rcases hk : c2.key with _ | k
        · exfalso
          simp [tailErr, hp, hacc, hz, hk] at hok
        · have hk2 : d2.key = some k := hkeyimp k hk
          exact ⟨by simp [tailErr, hq, hacc2, hz2, hk2],
            fun kk nn => by simp [dTail, hp, hq, hacc, hacc2, hz, hz2, hk, hk2]⟩
  · have h1 : ¬ (c2.phase = some Phase.VAL) := by
      rw [hp]
      simp
      exact hval
    have h2 : ¬ (d2.phase = some Phase.VAL) := by
      rw [hq]
      simp
      exact hval
    exact ⟨by simp [tailErr, h2], fun kk nn => by simp [dTail, h1, h2]⟩

/-- Unfolding of `stepErr` on an epoch-end event, with the nested match
expressed as a decidable test. -/
theorem stepErr_epochEnd (c : RecCtrl) (a b : Nat) (q : ℚ) (lm : Option (List ℚ)) :
    stepErr c (RecEvent.epochEnd a b q lm)
      = if c.begun = false then some PyErr.attributeError
        else if lm = some [] then some PyErr.indexError
        else tailErr { c with metricsAcc := accAfterSuper c lm } := by
  rcases lm with _ | ms
  · simp [stepErr]
  · rcases ms with _ | ⟨m0, mr⟩ <;> simp [stepErr]

/-- Unfolding of `dMetric` on an epoch-end event, with the nested match
expressed as a decidable test. -/
theorem dMetric_epochEnd (c : RecCtrl) (a b : Nat) (q : ℚ) (lm : Option (List ℚ))
    (kk : RKey) (nn : String) :
    dMetric c (RecEvent.epochEnd a b q lm) kk nn
      = if c.begun = false then []
        else if lm = some [] then []
        else dTail { c with metricsAcc := accAfterSuper c lm } kk nn := by
  rcases lm with _ | ms
  · simp only [dMetric]
    by_cases hb : c.begun = false <;> simp [hb]
  · rcases ms with _ | ⟨m0, mr⟩ <;>
      (simp only [dMetric]
       by_cases hb : c.begun = false <;> simp [hb])

/-- One-step simulation: if the control invariant holds between the
first-replay control `c` and the second-replay control `d`, the step does
not raise on `c`, and (for epoch-end events) the phase is established,
then the step does not raise on `d`, the two history deltas coincide, and
the invariant is preserved. -/
theorem stepSim (c d : RecCtrl) (ev : RecEvent)
    (hInv : ctrlInv c d)
    (hok : stepErr c ev = none)
    (hee : isEpochEndEv ev = true → c.phase.isSome) :
    stepErr d ev = none
  ∧ (∀ kk nn, dLoss c ev kk nn = dLoss d ev kk nn)
  ∧ (∀ kk nn, dMetric c ev kk nn = dMetric d ev kk nn)
  ∧ ctrlInv (ctrlStep c ev) (ctrlStep d ev) := by
  obtain ⟨hbg, hkey, hph⟩ := hInv
  cases ev with
  | trainBegin mnames =>
      refine ⟨rfl, fun kk nn => rfl, fun kk nn => rfl, ⟨fun _ => ⟨rfl, rfl, rfl⟩, ?_, ?_⟩⟩
      · intro k hk
        simp only [ctrlStep] at hk ⊢
        exact hkey k hk
      · intro ph2 hp2
        simp only [ctrlStep] at hp2 ⊢
        exact hph ph2 hp2
  | batchBegin train epoch tgt lr mom =>
      constructor
      · simp only [stepErr] at hok ⊢
        by_cases ht : train = true
        · have hcb : c.begun = true := by
            cases hb2 : c.begun
            · rw [ht, hb2] at hok
              simp at hok
            · rfl
          have hdb : d.begun = true := (hbg hcb).1
          simp [ht, hdb]
        · have ht2 : train = false := by
            cases train
            · rfl
            · exact absurd rfl ht
          simp [ht2]
      · refine ⟨fun kk nn => rfl, fun kk nn => rfl, ⟨?_, ?_, ?_⟩⟩
        · intro hb2
          simp only [ctrlStep] at hb2 ⊢
          exact hbg hb2
        · intro k hk
          simp only [ctrlStep] at hk ⊢
          exact hk
        · intro ph2 hp2
          simp only [ctrlStep] at hp2 ⊢
          exact hp2
  | batchEnd comps =>
      rcases hd : buildLossDict comps with _ | ⟨p, ps⟩
      · exact ⟨by simp [stepErr, hd], fun kk nn => by simp [dLoss, hd],
          fun kk nn => rfl, ⟨hbg, hkey, hph⟩⟩
      · rcases hk : c.key with _ | k
        · exfalso
          simp [stepErr, hd, hk] at hok
        · have hdk : d.key = some k := hkey k hk
          exact ⟨by simp [stepErr, hd, hdk], fun kk nn => by simp [dLoss, hd, hk, hdk],
            fun kk nn => rfl, ⟨hbg, hkey, hph⟩⟩
  | epochEnd epoch nb sl lm =>
      have hcb : c.begun = true := by
        cases hb2 : c.begun
        · exfalso
          rw [stepErr_epochEnd, if_pos hb2] at hok
          exact Option.noConfusion hok
        · rfl
      obtain ⟨hdb, hnames, hacc⟩ := hbg hcb
      obtain ⟨ph0, hph0⟩ := Option.isSome_iff_exists.mp (hee rfl)
      have hdph : d.phase = some ph0 := hph ph0 hph0
      have hncb : ¬ (c.begun = false) := by simp [hcb]
      have hndb : ¬ (d.begun = false) := by simp [hdb]
      have hA : accAfterSuper c lm = accAfterSuper d lm := by
        rcases lm with _ | ms
        · simp only [accAfterSuper]
          exact hacc
        · rcases ms with _ | ⟨m0, mrest⟩
          · simp only [accAfterSuper]
            exact hacc
          · simp only [accAfterSuper]
            rw [hacc]
      have hInv2 : ctrlInv (ctrlStep c (RecEvent.epochEnd epoch nb sl lm))
          (ctrlStep d (RecEvent.epochEnd epoch nb sl lm)) := by
        refine ⟨?_, ?_, ?_⟩
        · intro _
          simp only [ctrlStep]
          rw [if_neg hncb, if_neg hndb]
          exact ⟨hdb, hnames, hA⟩
        · intro k hk
          simp only [ctrlStep] at hk ⊢
          rw [if_neg hncb] at hk
          rw [if_neg hndb]
          exact hkey k hk
        · intro ph2 hp2
          simp only [ctrlStep] at hp2 ⊢
          rw [if_neg hncb] at hp2
          rw [if_neg hndb]
          exact hph ph2 hp2
      have hlmne : lm ≠ some [] := by
        intro hlm
        rw [stepErr_epochEnd, if_neg hncb, if_pos hlm] at hok
        exact Option.noConfusion hok
      have hok2 : tailErr { c with metricsAcc := accAfterSuper c lm } = none := by
        rw [stepErr_epochEnd, if_neg hncb, if_neg hlmne] at hok
        exact hok
      have htail := dTail_sim { c with metricsAcc := accAfterSuper c lm }
        { d with metricsAcc := accAfterSuper d lm } ph0 hph0 hdph hnames hA
        (fun k hk => hkey k hk) hok2
      refine ⟨?_, fun kk nn => rfl, fun kk nn => ?_, hInv2⟩
      · rw [stepErr_epochEnd, if_neg hndb, if_neg hlmne]
        exact htail.1
      · rw [dMetric_epochEnd, dMetric_epochEnd, if_neg hncb, if_neg hndb,
          if_neg hlmne, if_neg hlmne]
        exact htail.2 kk nn

/-- Run-level simulation: under the control invariant, with epoch-end
events preceded by batch-begin events (tracked by `sawBB`) and an
exception-free first run, the second run is exception-free and produces
the same history deltas. -/
theorem runSim : ∀ (evs : List RecEvent) (c d : RecCtrl) (sawBB : Bool),
    ctrlInv c d →
    (sawBB = true → c.phase.isSome ∧ c.key.isSome) →
    eesPreceded evs sawBB = true →
    runErr c evs = none →
    runErr d evs = none
  ∧ (∀ kk nn, runDL c evs kk nn = runDL d evs kk nn)
  ∧ (∀ kk nn, runDM c evs kk nn = runDM d evs kk nn) := by
  intro evs
  induction evs with
  | nil =>
      intro c d sawBB _ _ _ _
      exact ⟨rfl, fun kk nn => rfl, fun kk nn => rfl⟩
  | cons ev rest ih =>
      intro c d sawBB hInv hbb hees hok
      have hees1 : (!isEpochEndEv ev || sawBB) = true
          ∧ eesPreceded rest (sawBB || isBatchBeginEv ev) = true := by
        rw [eesPreceded, Bool.and_eq_true] at hees
        exact hees
      have hse : stepErr c ev = none := by
        rcases h : stepErr c ev with _ | e
        · rfl
        · rw [runErr, h] at hok
          exact Option.noConfusion hok
      have hok2 : runErr (ctrlStep c ev) rest = none := by
        rw [runErr, hse] at hok
        exact hok
      have hee : isEpochEndEv ev = true → c.phase.isSome := by
        intro h
        have hs : sawBB = true := by
          cases hsb : sawBB
          · exfalso
            have h1 := hees1.1
            rw [h, hsb] at h1
            exact absurd h1 (by simp)
          · rfl
        exact (hbb hs).1
      obtain ⟨hde, hdl, hdm, hInv2⟩ := stepSim c d ev hInv hse hee
      have hbb2 : (sawBB || isBatchBeginEv ev) = true →
          (ctrlStep c ev).phase.isSome ∧ (ctrlStep c ev).key.isSome := by
        intro h
        cases hsb : sawBB
        · have h1 : isBatchBeginEv ev = true := by
            rw [hsb] at h
            simpa using h
          cases ev <;> simp [isBatchBeginEv] at h1
          simp [ctrlStep]
        · obtain ⟨hp, hk⟩ := hbb hsb
          exact ⟨(ctrlStep_preserves_some c ev).1 hp, (ctrlStep_preserves_some c ev).2 hk⟩
      obtain ⟨iE, iL, iM⟩ := ih (ctrlStep c ev) (ctrlStep d ev) (sawBB || isBatchBeginEv ev)
        hInv2 hbb2 hees1.2 hok2
      refine ⟨?_, fun kk nn => ?_, fun kk nn => ?_⟩
      · rw [runErr, hde]
        exact iE
      · simp only [runDL, hse, hde]
        rw [hdl kk nn, iL kk nn]
      · simp only [runDM, hse, hde]
        rw [hdm kk nn, iM kk nn]

/-- C6 (amended): each Recorder event only appends to the per-key loss
and metric sequences (append-only, order-preserving, never shrinking);
and replaying the same event sequence twice from a fresh recorder doubles
each per-key sequence length, provided the single replay runs without an
exception and every epoch-end event of the sequence is preceded within
the sequence by a batch-begin event (so the phase and key it reads are
established by the sequence itself rather than left over from the
previous replay). -/
theorem C6_history_append_only_and_replay :
    (∀ (s : RecorderState) (ev : RecEvent) (kk : RKey) (nn : String),
        s.lossHistory kk nn <+: (stepRecorder s ev).1.lossHistory kk nn
      ∧ s.metricHistory kk nn <+: (stepRecorder s ev).1.metricHistory kk nn)
  ∧ (∀ evs : List RecEvent, eesPreceded evs false = true →
      (runRecorder initRecorder evs).2 = none →
      ∀ (kk : RKey) (nn : String),
        ((runRecorder initRecorder (evs ++ evs)).1.lossHistory kk nn).length
            = 2 * ((runRecorder initRecorder evs).1.lossHistory kk nn).length
      ∧ ((runRecorder initRecorder (evs ++ evs)).1.metricHistory kk nn).length
            = 2 * ((runRecorder initRecorder evs).1.metricHistory kk nn).length) := by
  constructor
  · intro s ev kk nn
    obtain ⟨hL, hM, _, _⟩ := stepRecorder_char s ev
    constructor
    · rw [hL kk nn]
      exact List.prefix_append _ _
    · rw [hM kk nn]
      exact List.prefix_append _ _
  · intro evs hees hok kk nn
    obtain ⟨rL, rM, rE, rC⟩ := runRecorder_char evs initRecorder
    have hok0 : runErr (ctrlOf initRecorder) evs = none := by
      rw [← rE]
      exact hok
    obtain ⟨rL2, rM2, rE2, rC2⟩ := runRecorder_char (evs ++ evs) initRecorder
    obtain ⟨aE, aC, aL, aM⟩ := run_append evs evs (ctrlOf initRecorder) hok0
    have hInv : ctrlInv (ctrlOf initRecorder) (runCtrl (ctrlOf initRecorder) evs) := by
      refine ⟨fun h => ?_, fun k hk => ?_, fun ph hp => ?_⟩
      · exact absurd h (by simp [ctrlOf, initRecorder])
      · exact absurd hk (by simp [ctrlOf, initRecorder])
      · exact absurd hp (by simp [ctrlOf, initRecorder])
    obtain ⟨sE, sL, sM⟩ := runSim evs (ctrlOf initRecorder) (runCtrl (ctrlOf initRecorder) evs)
      false hInv (fun h => absurd h (by simp)) hees hok0
    constructor
    · rw [rL2 kk nn, rL kk nn]
      have h0 : initRecorder.lossHistory kk nn = [] := rfl
      rw [h0]
      simp only [List.nil_append]
      rw [aL kk nn, ← sL kk nn, List.length_append]
      omega
    · rw [rM2 kk nn, rM kk nn]
      have h0 : initRecorder.metricHistory kk nn = [] := rfl
      rw [h0]
      simp only [List.nil_append]
      rw [aM kk nn, ← sM kk nn, List.length_append]
      omega

/-- C6 counterexample: for the sequence `evsBad`, whose first epoch-end
precedes any batch-begin, a double replay runs without error yet the
metric sequence under key ("VAL", 0) has length 3, not twice its
single-replay length 1 — the stale VAL phase left by the first replay
makes the leading epoch-end of the second replay append an extra value. -/
theorem C6_counterexample :
    (runRecorder initRecorder (evsBad ++ evsBad)).2 = none ∧
    (runRecorder initRecorder evsBad).2 = none ∧
    ((runRecorder initRecorder (evsBad ++ evsBad)).1.metricHistory ("VAL", 0) "m").length
      ≠ 2 * ((runRecorder initRecorder evsBad).1.metricHistory ("VAL", 0) "m").length := by
  refine ⟨by decide, by decide, by decide⟩

/-- Witness for the amended C6 at a concrete well-formed sequence. -/
theorem C6_history_append_only_and_replay_witness :
    eesPreceded evs1 false = true ∧
    (runRecorder initRecorder evs1).2 = none ∧
    ((runRecorder initRecorder (evs1 ++ evs1)).1.lossHistory ("VAL", 0) "L").length
        = 2 * ((runRecorder initRecorder evs1).1.lossHistory ("VAL", 0) "L").length ∧
    ((runRecorder initRecorder (evs1 ++ evs1)).1.metricHistory ("VAL", 0) "m").length
        = 2 * ((runRecorder initRecorder evs1).1.metricHistory ("VAL", 0) "m").length :=
  ⟨by decide, by decide,
    (C6_history_append_only_and_replay.2 evs1 (by decide) (by decide) ("VAL", 0) "L").1,
    (C6_history_append_only_and_replay.2 evs1 (by decide) (by decide) ("VAL", 0) "m").2⟩
